import Mathlib

/- Verification development for the pod-optimization engine of jtrevag/lfg-discord-bot.

The definitions below are a shallow embedding of
`src/lfg_bot/utils/pod_optimizer.py` (the module snapshot shipped in the
repository).  Python dictionaries are modelled as association lists that keep
insertion order (as Python dicts do), Python sets as `Finset String`, and the
two in-module loops with early exit / in-place growth are modelled as folds and
a fuelled recursion.  The `message` strings carried by the choice-scenario
dictionaries are pure display text derived from the other fields and are not
modelled. -/

namespace PodOptimizer

abbrev Player := String
abbrev Day := String

/-- Python: `PREF_ONE_GAME_ONLY = "one_game_only"`. -/
def PREF_ONE_GAME_ONLY : String := "one_game_only"

/-- Python: `PREF_NO_CONSECUTIVE = "no_consecutive"`. -/
def PREF_NO_CONSECUTIVE : String := "no_consecutive"

/-- Python: the `ADJACENT_DAYS` dict; its only read is `ADJACENT_DAYS.get(day, [])`,
so it is embedded as a total function defaulting to `[]`. -/
def ADJACENT_DAYS (day : Day) : List Day :=
  if day = "Monday" then ["Sunday", "Tuesday"]
  else if day = "Tuesday" then ["Monday", "Wednesday"]
  else if day = "Wednesday" then ["Tuesday", "Thursday"]
  else if day = "Thursday" then ["Wednesday", "Friday"]
  else if day = "Friday" then ["Thursday", "Saturday"]
  else if day = "Saturday" then ["Friday", "Sunday"]
  else if day = "Sunday" then ["Saturday", "Monday"]
  else []

/-- The seven canonical weekday names (the keys of the Python `day_order` dict). -/
def canonicalDays : List Day :=
  ["Monday", "Tuesday", "Wednesday", "Thursday", "Friday", "Saturday", "Sunday"]

/-- Python: the local `day_order` dict in `_find_best_assignment`; its only read is
`day_order.get(day, 99)`. -/
def dayOrder (day : Day) : Int :=
  if day = "Monday" then 0
  else if day = "Tuesday" then 1
  else if day = "Wednesday" then 2
  else if day = "Thursday" then 3
  else if day = "Friday" then 4
  else if day = "Saturday" then 5
  else if day = "Sunday" then 6
  else 99

/-- Association-list lookup: Python `dict.get(k)` on an insertion-ordered dict. -/
def alistGet {α : Type} (k : String) : List (String × α) → Option α
  | [] => none
  | (k1, v) :: rest => if k1 = k then some v else alistGet k rest

/-- Python `dict.get(k, d)`. -/
def alistGetD {α : Type} (m : List (String × α)) (k : String) (d : α) : α :=
  (alistGet k m).getD d

/-- Python `m.setdefault(k, []).append(v)` pattern: append `v` to the list stored
at `k`, creating the key at the end of the dict (Python insertion order) if absent. -/
def pushVal {α : Type} (k : String) (v : α) : List (String × List α) → List (String × List α)
  | [] => [(k, [v])]
  | (k1, vs) :: rest =>
      if k1 = k then (k1, vs ++ [v]) :: rest else (k1, vs) :: pushVal k v rest

/-- Python `m[k] = m.get(k, 0) + 1`. -/
def bumpVal (k : String) : List (String × Nat) → List (String × Nat)
  | [] => [(k, 1)]
  | (k1, n) :: rest =>
      if k1 = k then (k1, n + 1) :: rest else (k1, n) :: bumpVal k rest

/-- Python `_can_assign_to_day`: a per-player preference check. -/
def canAssignToDay (player : Player) (day : Day)
    (playerAssignedDays : List (Player × List Day))
    (preferences : List (Player × List String)) : Bool :=
  let playerPrefs := alistGetD preferences player []
  let assignedDays := alistGetD playerAssignedDays player []
  if PREF_ONE_GAME_ONLY ∈ playerPrefs ∧ 1 ≤ assignedDays.length then false
  else if PREF_NO_CONSECUTIVE ∈ playerPrefs ∧ ∃ d ∈ assignedDays, d ∈ ADJACENT_DAYS day then
    false
  else true

/-- One player's contribution to the day-to-players inversion: for each day in the
player's availability list, append the player to that day's bucket. -/
def addDays (m : List (Day × List Player)) (pd : Player × List Day) :
    List (Day × List Player) :=
  pd.2.foldl (fun m d => pushVal d pd.1 m) m

/-- Python `optimize_pods` lines 101-109: invert availability into
`day -> list of available players`, in encounter order. -/
def dayToPlayers (availability : List (Player × List Day)) : List (Day × List Player) :=
  availability.foldl addDays []

/-- Python `_count_unique_players`: players on `day` whose availability has exactly
one day.  (When reached from `optimize_pods`, every player on a day is a key of
`availability`, so the missing-key default is never hit.) -/
def countUniquePlayers (day : Day) (dtp : List (Day × List Player))
    (availability : List (Player × List Day)) : Nat :=
  (alistGetD dtp day []).countP (fun p => decide ((alistGetD availability p []).length = 1))

/-- Python `_detect_critical_flexible_players`: returns the `critical_assignments`
dict (player to the single day they are reserved for), threading the
`reserved_from_day` counters through the fold. -/
def detectCriticalFlexiblePlayers (dtp : List (Day × List Player))
    (availability : List (Player × List Day)) : List (Player × Day) :=
  let flexible := availability.filter (fun pd => decide (2 ≤ pd.2.length))
  (flexible.foldl
    (fun (acc : List (Player × Day) × List (Day × Nat)) pd =>
      let player := pd.1
      let daysRemaining : List (Day × Nat) :=
        pd.2.foldl (fun m d =>
          if (alistGet d m).isSome then m
          else m ++ [(d, (alistGetD dtp d []).countP (fun p => decide (p ≠ player)))]) []
      let daysNeeding := (daysRemaining.filter (fun dc => decide (dc.2 < 4))).map Prod.fst
      let daysNotNeeding := (daysRemaining.filter (fun dc => decide (4 ≤ dc.2))).map Prod.fst
      if daysNeeding.length = 1 ∧ 1 ≤ daysNotNeeding.length then
        let criticalDay := daysNeeding.headD ""
        let canReserve := daysNotNeeding.all (fun otherDay =>
          let total : Int := ((alistGetD dtp otherDay []).length : Int)
          let alreadyReserved : Int := ((alistGetD acc.2 otherDay 0 : Nat) : Int)
          let effective := total - alreadyReserved
          -- Python `//` is floor division
          decide (¬ (Int.fdiv (effective - 1) 4 < Int.fdiv effective 4)))
        if canReserve then
          (acc.1 ++ [(player, criticalDay)],
           daysNotNeeding.foldl (fun rf d => bumpVal d rf) acc.2)
        else acc
      else acc)
    ([], [])).1

/-- The composite sort key built by the Python `day_priority` closure:
`(is_complete, unique_count, player_count, -day_order.get(day, 99))`. -/
def dayPriority (dtp : List (Day × List Player)) (availability : List (Player × List Day))
    (di : Day × List Player) : Bool × Nat × Nat × Int :=
  let playerCount := di.2.length
  (decide (playerCount % 4 = 0 ∧ 0 < playerCount),
   countUniquePlayers di.1 dtp availability,
   playerCount,
   -(dayOrder di.1))

/-- `false < true` as in Python bool ordering inside tuple comparison. -/
def boolNat (b : Bool) : Nat := if b then 1 else 0

/-- Lexicographic comparison of the composite keys, exactly Python tuple `<=`. -/
def keyLE (x y : Bool × Nat × Nat × Int) : Prop :=
  boolNat x.1 < boolNat y.1 ∨
    (x.1 = y.1 ∧ (x.2.1 < y.2.1 ∨
      (x.2.1 = y.2.1 ∧ (x.2.2.1 < y.2.2.1 ∨
        (x.2.2.1 = y.2.2.1 ∧ x.2.2.2 ≤ y.2.2.2)))))

instance : DecidableRel keyLE := fun x y => by
  unfold keyLE
  infer_instance

/-- `a` may come before `b` in the descending stable sort iff `key b ≤ key a`. -/
def sortRel (dtp : List (Day × List Player)) (availability : List (Player × List Day))
    (a b : Day × List Player) : Prop :=
  keyLE (dayPriority dtp availability b) (dayPriority dtp availability a)

instance (dtp : List (Day × List Player)) (availability : List (Player × List Day)) :
    DecidableRel (sortRel dtp availability) := fun a b => by
  unfold sortRel
  infer_instance

/-- Python `sorted(day_to_players.items(), key=day_priority, reverse=True)`:
a stable descending sort; `List.insertionSort` with `sortRel` is the stable sort
for this total preorder, hence produces the same list. -/
def sortedDays (dtp : List (Day × List Player)) (availability : List (Player × List Day)) :
    List (Day × List Player) :=
  List.insertionSort (sortRel dtp availability) dtp

/-- Python dataclass `PodAssignment`. -/
structure PodAssignment where
  day : Day
  players : List Player
deriving DecidableEq

/-- The two choice-scenario dicts built by the module (`scenario` tag plus data
fields; the derived `message` display string is not modelled). -/
inductive ChoiceScenario where
  | doublePlayNeeded (day : Day) (waitingPlayers : List Player)
      (flexibleCandidates : List Player) : ChoiceScenario
  | criticalForBoth (player : Player) (day1 day2 : Day)
      (pod1 pod2 : List Player) : ChoiceScenario
deriving DecidableEq

/-- Python dataclass `OptimizationResult` (snapshot version: no incomplete pods). -/
structure OptimizationResult where
  pods : List PodAssignment
  players_with_games : Finset Player
  players_without_games : Finset Player
  choice_required : Option ChoiceScenario
deriving DecidableEq

/-- The mutable locals of `_find_best_assignment`'s day loop. -/
structure AssignState where
  pods : List PodAssignment
  assigned : Finset Player
  playerAssignedDays : List (Player × List Day)
  reserved : Finset Player
deriving DecidableEq

/-- The `is_eligible` closure inside `_find_best_assignment`. -/
def isEligible (day : Day) (criticalForDay : List Player)
    (prefs : List (Player × List String)) (st : AssignState) (p : Player) : Bool :=
  if p ∈ st.assigned then false
  else if p ∈ st.reserved ∧ p ∉ criticalForDay then false
  else canAssignToDay p day st.playerAssignedDays prefs

/-- The per-pod state update in the `while` body: append the pod, mark the four
players assigned, record the day against each, drop them from the reserved set. -/
def assignPod (day : Day) (podPlayers : List Player) (st : AssignState) : AssignState where
  pods := st.pods ++ [⟨day, podPlayers⟩]
  assigned := podPlayers.foldl (fun s p => insert p s) st.assigned
  playerAssignedDays := podPlayers.foldl (fun m p => pushVal p day m) st.playerAssignedDays
  reserved := podPlayers.foldl (fun s p => s.erase p) st.reserved

/-- The `while len(unassigned_available) >= 4` loop.  Each iteration assigns four
players, all of whose occurrences then fail `is_eligible`, so the eligible pool
shrinks by at least 4 per iteration; fuel `available.length` therefore bounds the
iteration count and the fuelled recursion computes the loop's fixpoint. -/
def formPodsLoop (day : Day) (available : List Player) (criticalForDay : List Player)
    (prefs : List (Player × List String)) : Nat → AssignState → AssignState
  | 0, st => st
  | fuel + 1, st =>
      if 4 ≤ (available.filter (isEligible day criticalForDay prefs st)).length then
        formPodsLoop day available criticalForDay prefs fuel
          (assignPod day ((available.filter (isEligible day criticalForDay prefs st)).take 4) st)
      else st

/-- The stale-reservation release check after each day: keep a reserved player
unless their required day (truthy, per Python `if required_day:`) can no longer
reach 4 unassigned players. -/
def keepReserved (ca : List (Player × Day)) (dtp : List (Day × List Player))
    (assigned : Finset Player) (r : Player) : Bool :=
  match alistGet r ca with
  | some reqDay =>
      if reqDay = "" then true
      else !(decide (((alistGetD dtp reqDay []).filter (fun p => decide (p ∉ assigned))).length < 4))
  | none => true

/-- Lines 312-328 of the module: release reservations whose target day is moot. -/
def releaseStale (ca : List (Player × Day)) (dtp : List (Day × List Player))
    (st : AssignState) : AssignState :=
  { st with reserved := st.reserved.filter (fun r => keepReserved ca dtp st.assigned r = true) }

/-- One iteration of the STEP 3 `for day, available in sorted_days` loop. -/
def processDay (dtp : List (Day × List Player)) (ca : List (Player × Day))
    (cbd : List (Day × List Player)) (prefs : List (Player × List String))
    (st : AssignState) (di : Day × List Player) : AssignState :=
  let criticalForDay := alistGetD cbd di.1 []
  releaseStale ca dtp (formPodsLoop di.1 di.2 criticalForDay prefs di.2.length st)

/-- Grouping `critical_assignments` by required day (`critical_by_day`). -/
def criticalByDay (ca : List (Player × Day)) : List (Day × List Player) :=
  ca.foldl (fun m pd => pushVal pd.2 pd.1 m) []

/-- The initial loop state: no pods, nothing assigned, reserved = critical players. -/
def assignInit (dtp : List (Day × List Player)) (availability : List (Player × List Day)) :
    AssignState where
  pods := []
  assigned := ∅
  playerAssignedDays := []
  reserved := ((detectCriticalFlexiblePlayers dtp availability).map Prod.fst).toFinset

/-- The state after STEP 3 has processed every day in priority order. -/
def assignFinal (dtp : List (Day × List Player)) (availability : List (Player × List Day))
    (prefs : List (Player × List String)) : AssignState :=
  let ca := detectCriticalFlexiblePlayers dtp availability
  (sortedDays dtp availability).foldl (processDay dtp ca (criticalByDay ca) prefs)
    (assignInit dtp availability)

/-- The `unassigned_available` list of the STEP 4 second pass. -/
def unassignedOn (st : AssignState) (di : Day × List Player) : List Player :=
  di.2.filter (fun p => decide (p ∉ st.assigned))

/-- The `flexible_candidates` list of the STEP 4 second pass. -/
def flexCandidates (availability : List (Player × List Day))
    (prefs : List (Player × List String)) (st : AssignState)
    (di : Day × List Player) : List Player :=
  di.2.filter (fun p =>
    decide (p ∈ st.assigned) &&
    decide (1 < (alistGetD availability p []).length) &&
    decide (PREF_ONE_GAME_ONLY ∉ alistGetD prefs p []) &&
    canAssignToDay p di.1 st.playerAssignedDays prefs)

/-- One day of the STEP 4 scan: a double-play opportunity iff exactly 3 unassigned
players wait and at least one flexible candidate exists. -/
def dplayCheck (availability : List (Player × List Day))
    (prefs : List (Player × List String)) (st : AssignState)
    (di : Day × List Player) : Option ChoiceScenario :=
  if (unassignedOn st di).length = 3 then
    if flexCandidates availability prefs st di ≠ [] then
      some (.doublePlayNeeded di.1 (unassignedOn st di) (flexCandidates availability prefs st di))
    else none
  else none

/-- STEP 4: the scan breaks at the first opportunity (`break` in the source). -/
def findDoublePlay (availability : List (Player × List Day))
    (prefs : List (Player × List String)) (sDays : List (Day × List Player))
    (st : AssignState) : Option ChoiceScenario :=
  sDays.findSome? (dplayCheck availability prefs st)

/-- Python `_find_best_assignment` (with `availability` always supplied, as
`optimize_pods` does; the `availability is None` reconstruction branch is dead
on that path). -/
def findBestAssignment (dtp : List (Day × List Player)) (allPlayers : Finset Player)
    (availability : List (Player × List Day)) (prefs : List (Player × List String)) :
    OptimizationResult :=
  let st := assignFinal dtp availability prefs
  { pods := st.pods
    players_with_games := st.assigned
    players_without_games := allPlayers \ st.assigned
    choice_required := findDoublePlay availability prefs (sortedDays dtp availability) st }

/-- `itertools.combinations(days, 2)` in its generation order. -/
def pairsCombos : List Day → List (Day × Day)
  | [] => []
  | d :: rest => rest.map (fun d2 => (d, d2)) ++ pairsCombos rest

/-- Python `_detect_choice_scenario` (its unused `current_result` parameter is
dropped): first multi-day player and first pair of their days such that both days
have exactly 4 available players including the player. -/
def detectChoiceScenario (availability : List (Player × List Day))
    (dtp : List (Day × List Player)) : Option ChoiceScenario :=
  (availability.filter (fun pd => decide (1 < pd.2.length))).findSome? (fun pd =>
    (pairsCombos pd.2).findSome? (fun d12 =>
      match alistGet d12.1 dtp, alistGet d12.2 dtp with
      | some ps1, some ps2 =>
          if ps1.length = 4 ∧ ps2.length = 4 ∧ pd.1 ∈ ps1 ∧ pd.1 ∈ ps2 then
            some (.criticalForBoth pd.1 d12.1 d12.2 ps1 ps2)
          else none
      | _, _ => none))

/-- Python `optimize_pods`: the module entry point. -/
def optimizePods (availability : List (Player × List Day))
    (prefs : List (Player × List String)) : OptimizationResult :=
  let dtp := dayToPlayers availability
  let allPlayers := (availability.map Prod.fst).toFinset
  let best := findBestAssignment dtp allPlayers availability prefs
  match detectChoiceScenario availability dtp with
  | some c => { best with choice_required := some c }
  | none => best

/-! ### Association-list lemmas -/

theorem alistGet_pushVal_self {α : Type} (m : List (String × List α)) (k : String) (v : α) :
    alistGet k (pushVal k v m) = some (alistGetD m k [] ++ [v]) := by
  induction m with
  | nil => simp [pushVal, alistGet, alistGetD]
  | cons hd rest ih =>
      obtain ⟨k1, vs⟩ := hd
      by_cases h : k1 = k
      · subst h
        simp [pushVal, alistGet, alistGetD]
      · simp [pushVal, alistGet, alistGetD, h] at ih ⊢
        exact ih

theorem alistGet_pushVal_ne {α : Type} (m : List (String × List α)) {k e : String} (v : α)
    (h : e ≠ k) : alistGet e (pushVal k v m) = alistGet e m := by
  induction m with
  | nil => simp [pushVal, alistGet, Ne.symm h]
  | cons hd rest ih =>
      obtain ⟨k1, vs⟩ := hd
      by_cases h1 : k1 = k
      · subst h1
        simp [pushVal, alistGet, Ne.symm h]
      · simp [pushVal, alistGet, h1, ih]

theorem alistGetD_pushVal_self {α : Type} (m : List (String × List α)) (k : String) (v : α) :
    alistGetD (pushVal k v m) k [] = alistGetD m k [] ++ [v] := by
  simp [alistGetD, alistGet_pushVal_self]

theorem alistGetD_pushVal_ne {α : Type} (m : List (String × List α)) {k e : String} (v : α)
    (h : e ≠ k) : alistGetD (pushVal k v m) e [] = alistGetD m e [] := by
  simp [alistGetD, alistGet_pushVal_ne m v h]

theorem alistGet_eq_none_iff {α : Type} (m : List (String × α)) (k : String) :
    alistGet k m = none ↔ k ∉ m.map Prod.fst := by
  induction m with
  | nil => simp [alistGet]
  | cons hd rest ih =>
      obtain ⟨k1, v⟩ := hd
      by_cases h : k1 = k
      · subst h
        simp [alistGet]
      · simp [alistGet, h, ih, Ne.symm h]

theorem pushVal_map_fst {α : Type} (m : List (String × List α)) (k : String) (v : α) :
    (pushVal k v m).map Prod.fst =
      if k ∈ m.map Prod.fst then m.map Prod.fst else m.map Prod.fst ++ [k] := by
  induction m with
  | nil => simp [pushVal]
  | cons hd rest ih =>
      obtain ⟨k1, vs⟩ := hd
      by_cases h : k1 = k
      · subst h
        simp [pushVal]
      · simp only [pushVal, if_neg h, List.map_cons, ih]
        by_cases h2 : k ∈ rest.map Prod.fst
        · simp [h2]
        · simp [h2, Ne.symm h]

theorem pushVal_keys_nodup {α : Type} {m : List (String × List α)} (k : String) (v : α)
    (h : (m.map Prod.fst).Nodup) : ((pushVal k v m).map Prod.fst).Nodup := by
  by_cases hk : k ∈ m.map Prod.fst
  · rw [pushVal_map_fst, if_pos hk]
    exact h
  · rw [pushVal_map_fst, if_neg hk]
    refine List.Nodup.append h (List.nodup_singleton k) ?dj
    intro a ha hb
    rw [List.mem_singleton] at hb
    subst hb
    exact hk ha

theorem alistGet_of_mem_of_nodup {α : Type} {m : List (String × α)}
    (h : (m.map Prod.fst).Nodup) {pd : String × α} (hm : pd ∈ m) :
    alistGet pd.1 m = some pd.2 := by
  induction m with
  | nil => simp at hm
  | cons hd rest ih =>
      simp only [List.map_cons, List.nodup_cons] at h
      rcases List.mem_cons.mp hm with h1 | h1
      · subst h1
        simp [alistGet]
      · have hne : hd.1 ≠ pd.1 := by
          intro he
          exact h.1 (he ▸ List.mem_map_of_mem Prod.fst h1)
        simp [alistGet, hne, ih h.2 h1]

/-! ### Characterization of the day-to-players inversion -/

/-- Proof-side characterization of a day's bucket: each availability entry
contributes one copy of the player per occurrence of the day in their list. -/
def avPlayersOn (availability : List (Player × List Day)) (d : Day) : List Player :=
  availability.foldr (fun pd acc => List.replicate (pd.2.count d) pd.1 ++ acc) []

theorem avPlayersOn_nil (d : Day) : avPlayersOn [] d = [] := rfl

theorem avPlayersOn_cons (pd : Player × List Day) (av : List (Player × List Day)) (d : Day) :
    avPlayersOn (pd :: av) d = List.replicate (pd.2.count d) pd.1 ++ avPlayersOn av d := rfl

theorem foldl_pushVal_getD (p : Player) (e : Day) :
    ∀ (days : List Day) (m : List (Day × List Player)),
      alistGetD (days.foldl (fun m d => pushVal d p m) m) e [] =
        alistGetD m e [] ++ List.replicate (days.count e) p := by
  intro days
  induction days with
  | nil => simp
  | cons d0 rest ih =>
      intro m
      by_cases h : e = d0
      · subst h
        simp only [List.foldl_cons, ih, alistGetD_pushVal_self, List.count_cons,
          List.append_assoc]
        simp [List.replicate_succ]
      · simp [List.foldl_cons, ih, alistGetD_pushVal_ne m p h, List.count_cons,
          Ne.symm h]

theorem addDays_getD (m : List (Day × List Player)) (pd : Player × List Day) (e : Day) :
    alistGetD (addDays m pd) e [] =
      alistGetD m e [] ++ List.replicate (pd.2.count e) pd.1 :=
  foldl_pushVal_getD pd.1 e pd.2 m

theorem foldl_addDays_getD (e : Day) :
    ∀ (av : List (Player × List Day)) (m : List (Day × List Player)),
      alistGetD (av.foldl addDays m) e [] = alistGetD m e [] ++ avPlayersOn av e := by
  intro av
  induction av with
  | nil => simp [avPlayersOn_nil]
  | cons pd rest ih =>
      intro m
      simp [List.foldl_cons, ih, addDays_getD, avPlayersOn_cons]

theorem dayToPlayers_getD (av : List (Player × List Day)) (e : Day) :
    alistGetD (dayToPlayers av) e [] = avPlayersOn av e := by
  simpa [dayToPlayers, alistGetD, alistGet] using foldl_addDays_getD e av []

theorem addDays_keys_nodup {m : List (Day × List Player)} (pd : Player × List Day)
    (h : (m.map Prod.fst).Nodup) : ((addDays m pd).map Prod.fst).Nodup := by
  unfold addDays
  induction pd.2 generalizing m with
  | nil => exact h
  | cons d rest ih => exact ih (pushVal_keys_nodup d pd.1 h)

theorem dayToPlayers_keys_nodup (av : List (Player × List Day)) :
    ((dayToPlayers av).map Prod.fst).Nodup := by
  unfold dayToPlayers
  have : ∀ (l : List (Player × List Day)) (m : List (Day × List Player)),
      (m.map Prod.fst).Nodup → ((l.foldl addDays m).map Prod.fst).Nodup := by
    intro l
    induction l with
    | nil => exact fun m h => h
    | cons pd rest ih => exact fun m h => ih _ (addDays_keys_nodup pd h)
  exact this av [] (by simp)

theorem mem_dayToPlayers_getD {av : List (Player × List Day)} {di : Day × List Player}
    (h : di ∈ dayToPlayers av) : di.2 = avPlayersOn av di.1 := by
  have hget := alistGet_of_mem_of_nodup (dayToPlayers_keys_nodup av) h
  have := dayToPlayers_getD av di.1
  rw [alistGetD, hget] at this
  simpa using this

theorem mem_avPlayersOn {av : List (Player × List Day)} {d : Day} {p : Player} :
    p ∈ avPlayersOn av d ↔ ∃ pd ∈ av, pd.1 = p ∧ d ∈ pd.2 := by
  induction av with
  | nil => simp [avPlayersOn_nil]
  | cons pd rest ih =>
      simp only [avPlayersOn_cons, List.mem_append, List.mem_replicate, ih,
        List.mem_cons]
      constructor
      · rintro (⟨hcnt, rfl⟩ | ⟨pd1, h1, h2, h3⟩)
        · exact ⟨pd, Or.inl rfl, rfl, List.count_pos_iff.mp (Nat.pos_of_ne_zero hcnt)⟩
        · exact ⟨pd1, Or.inr h1, h2, h3⟩
      · rintro ⟨pd1, (rfl | h1), h2, h3⟩
        · exact Or.inl ⟨Nat.pos_iff_ne_zero.mp (List.count_pos_iff.mpr h3), h2.symm⟩
        · exact Or.inr ⟨pd1, h1, h2, h3⟩

theorem avPlayersOn_sub_keys {av : List (Player × List Day)} {d : Day} {p : Player}
    (h : p ∈ avPlayersOn av d) : p ∈ av.map Prod.fst := by
  obtain ⟨pd, hpd, hp, _⟩ := mem_avPlayersOn.mp h
  exact hp ▸ List.mem_map_of_mem Prod.fst hpd

theorem avPlayersOn_nodup {av : List (Player × List Day)}
    (hk : (av.map Prod.fst).Nodup) (hd : ∀ pd ∈ av, pd.2.Nodup) (d : Day) :
    (avPlayersOn av d).Nodup := by
  induction av with
  | nil => simp [avPlayersOn_nil]
  | cons pd rest ih =>
      simp only [List.map_cons, List.nodup_cons] at hk
      rw [avPlayersOn_cons]
      refine List.Nodup.append ?h1
        (ih hk.2 (fun x hx => hd x (List.mem_cons_of_mem pd hx))) ?h2
      · have hcnt : pd.2.count d ≤ 1 :=
          List.nodup_iff_count_le_one.mp (hd pd (List.mem_cons_self pd rest)) d
        exact List.nodup_replicate.mpr hcnt
      · intro a ha hb
        rw [List.mem_replicate] at ha
        obtain ⟨pd1, h1, h2, _⟩ := mem_avPlayersOn.mp hb
        exact hk.1 (ha.2 ▸ h2 ▸ List.mem_map_of_mem Prod.fst h1)

theorem avPlayersOn_mem_avail {av : List (Player × List Day)}
    (hk : (av.map Prod.fst).Nodup) {d : Day} {p : Player}
    (h : p ∈ avPlayersOn av d) : d ∈ alistGetD av p [] := by
  obtain ⟨pd, h1, h2, h3⟩ := mem_avPlayersOn.mp h
  have hg := alistGet_of_mem_of_nodup hk h1
  rw [h2] at hg
  rw [alistGetD, hg]
  simpa using h3

theorem keys_foldl_pushVal (p : Player) :
    ∀ (days : List Day) (m : List (Day × List Player)) (d : Day),
      d ∈ ((days.foldl (fun m d => pushVal d p m) m).map Prod.fst) →
      d ∈ m.map Prod.fst ∨ d ∈ days := by
  intro days
  induction days with
  | nil => exact fun m d h => Or.inl h
  | cons d0 rest ih =>
      intro m d h
      rcases ih (pushVal d0 p m) d h with h1 | h1
      · by_cases hmem : d0 ∈ m.map Prod.fst
        · rw [pushVal_map_fst, if_pos hmem] at h1
          exact Or.inl h1
        · rw [pushVal_map_fst, if_neg hmem] at h1
          rcases List.mem_append.mp h1 with h2 | h2
          · exact Or.inl h2
          · rw [List.mem_singleton] at h2
            exact Or.inr (h2 ▸ List.mem_cons_self d0 rest)
      · exact Or.inr (List.mem_cons_of_mem d0 h1)

theorem keys_dayToPlayers_mem {av : List (Player × List Day)} {d : Day}
    (h : d ∈ (dayToPlayers av).map Prod.fst) : ∃ pd ∈ av, d ∈ pd.2 := by
  unfold dayToPlayers at h
  have main : ∀ (l : List (Player × List Day)) (m : List (Day × List Player)),
      d ∈ ((l.foldl addDays m).map Prod.fst) →
      d ∈ m.map Prod.fst ∨ ∃ pd ∈ l, d ∈ pd.2 := by
    intro l
    induction l with
    | nil => exact fun m hh => Or.inl hh
    | cons pd rest ih =>
        intro m hh
        rcases ih (addDays m pd) hh with h1 | h1
        · rcases keys_foldl_pushVal pd.1 pd.2 m d h1 with h2 | h2
          · exact Or.inl h2
          · exact Or.inr ⟨pd, List.mem_cons_self pd rest, h2⟩
        · obtain ⟨pd1, hp1, hp2⟩ := h1
          exact Or.inr ⟨pd1, List.mem_cons_of_mem pd hp1, hp2⟩
  rcases main av [] h with h1 | h1
  · simp at h1
  · exact h1

/-! ### The composite key is a total preorder -/

theorem keyLE_total (x y : Bool × Nat × Nat × Int) : keyLE x y ∨ keyLE y x := by
  obtain ⟨b1, u1, c1, w1⟩ := x
  obtain ⟨b2, u2, c2, w2⟩ := y
  unfold keyLE boolNat
  cases b1 <;> cases b2 <;> simp <;> omega

theorem keyLE_trans {x y z : Bool × Nat × Nat × Int}
    (h1 : keyLE x y) (h2 : keyLE y z) : keyLE x z := by
  obtain ⟨b1, u1, c1, w1⟩ := x
  obtain ⟨b2, u2, c2, w2⟩ := y
  obtain ⟨b3, u3, c3, w3⟩ := z
  unfold keyLE boolNat at h1 h2 ⊢
  cases b1 <;> cases b2 <;> cases b3 <;> simp_all <;> omega

theorem keyLE_antisymm {x y : Bool × Nat × Nat × Int}
    (h1 : keyLE x y) (h2 : keyLE y x) : x = y := by
  obtain ⟨b1, u1, c1, w1⟩ := x
  obtain ⟨b2, u2, c2, w2⟩ := y
  unfold keyLE boolNat at h1 h2
  simp only [Prod.mk.injEq]
  cases b1 <;> cases b2 <;> simp_all <;> omega

theorem dayOrder_inj :
    ∀ d1 ∈ canonicalDays, ∀ d2 ∈ canonicalDays, dayOrder d1 = dayOrder d2 → d1 = d2 := by
  decide

theorem not_mem_adjacent_self (d : Day) : d ∉ ADJACENT_DAYS d := by
  unfold ADJACENT_DAYS
  split_ifs <;> subst_vars <;> simp

/-! ### Sorted-days facts -/

theorem sortedDays_perm (dtp : List (Day × List Player)) (av : List (Player × List Day)) :
    (sortedDays dtp av).Perm dtp :=
  List.perm_insertionSort _ _

theorem sortedDays_mem {dtp : List (Day × List Player)} {av : List (Player × List Day)}
    {di : Day × List Player} : di ∈ sortedDays dtp av ↔ di ∈ dtp :=
  (sortedDays_perm dtp av).mem_iff

theorem sortedDays_pairwise (dtp : List (Day × List Player)) (av : List (Player × List Day)) :
    (sortedDays dtp av).Pairwise (sortRel dtp av) := by
  haveI : IsTotal (Day × List Player) (sortRel dtp av) :=
    ⟨fun a b => keyLE_total (dayPriority dtp av b) (dayPriority dtp av a)⟩
  haveI : IsTrans (Day × List Player) (sortRel dtp av) :=
    ⟨fun _ _ _ hab hbc => keyLE_trans hbc hab⟩
  exact List.sorted_insertionSort (sortRel dtp av) dtp

theorem pairwise_imp_mem {α : Type} {R S : α → α → Prop} :
    ∀ {l : List α}, (∀ a ∈ l, ∀ b ∈ l, R a b → S a b) → l.Pairwise R → l.Pairwise S := by
  intro l
  induction l with
  | nil => intro _ _; exact List.Pairwise.nil
  | cons x xs ih =>
      intro h hp
      rw [List.pairwise_cons] at hp ⊢
      refine ⟨fun b hb => h x (List.mem_cons_self x xs) b (List.mem_cons_of_mem x hb)
        (hp.1 b hb), ?_⟩
      exact ih (fun a ha b hb hr =>
        h a (List.mem_cons_of_mem x ha) b (List.mem_cons_of_mem x hb) hr) hp.2

/-- C5: the greedy assigner iterates over `sortedDays` — a permutation of the
day-to-players entries, strictly descending in the composite key
`(is_multiple_of_pod_size, unique_player_count, total_player_count, earlier_in_week)`
whenever all day names are canonical (distinct canonical days always differ in the
`earlier_in_week` component, so ties on the three counts are broken by it). -/
theorem greedy_processing_order (av : List (Player × List Day))
    (hcanon : ∀ pd ∈ av, ∀ d ∈ pd.2, d ∈ canonicalDays) :
    (sortedDays (dayToPlayers av) av).Perm (dayToPlayers av) ∧
    (sortedDays (dayToPlayers av) av).Pairwise (fun a b =>
      keyLE (dayPriority (dayToPlayers av) av b) (dayPriority (dayToPlayers av) av a) ∧
      dayPriority (dayToPlayers av) av a ≠ dayPriority (dayToPlayers av) av b) := by
  have hperm := sortedDays_perm (dayToPlayers av) av
  refine ⟨hperm, ?_⟩
  have hsorted := sortedDays_pairwise (dayToPlayers av) av
  have hkeys2 : ((sortedDays (dayToPlayers av) av).map Prod.fst).Nodup :=
    ((hperm.map Prod.fst).nodup_iff).mpr (dayToPlayers_keys_nodup av)
  have hne : (sortedDays (dayToPlayers av) av).Pairwise (fun a b => a.1 ≠ b.1) :=
    (List.pairwise_map).mp hkeys2
  have hand := hsorted.and hne
  refine pairwise_imp_mem ?_ hand
  intro a ha b hb hr
  refine ⟨hr.1, ?_⟩
  intro hkey
  have hcanonOf : ∀ x ∈ sortedDays (dayToPlayers av) av, x.1 ∈ canonicalDays := by
    intro x hx
    have hmem : x ∈ dayToPlayers av := sortedDays_mem.mp hx
    obtain ⟨pd, hpd, hdmem⟩ :=
      keys_dayToPlayers_mem (List.mem_map_of_mem Prod.fst hmem)
    exact hcanon pd hpd x.1 hdmem
  have h4 : dayOrder a.1 = dayOrder b.1 := by
    have hcomp := congrArg (fun k => k.2.2.2) hkey
    simp only [dayPriority] at hcomp
    omega
  exact hr.2 (dayOrder_inj a.1 (hcanonOf a ha) b.1 (hcanonOf b hb) h4)

/-- Two fully tied complete days (all three counts equal): the earlier-in-week
tie-break puts Monday first. -/
def tiedTwoDaysAv : List (Player × List Day) :=
  [("A", ["Monday"]), ("B", ["Monday"]), ("C", ["Monday"]), ("D", ["Monday"]),
   ("E", ["Wednesday"]), ("F", ["Wednesday"]), ("G", ["Wednesday"]), ("H", ["Wednesday"])]

theorem greedy_processing_order_witness :
    (∀ pd ∈ tiedTwoDaysAv, ∀ d ∈ pd.2, d ∈ canonicalDays) ∧
    sortedDays (dayToPlayers tiedTwoDaysAv) tiedTwoDaysAv =
      [("Monday", ["A", "B", "C", "D"]), ("Wednesday", ["E", "F", "G", "H"])] ∧
    (sortedDays (dayToPlayers tiedTwoDaysAv) tiedTwoDaysAv).Perm (dayToPlayers tiedTwoDaysAv) :=
  ⟨by decide, by decide, (greedy_processing_order tiedTwoDaysAv (by decide)).1⟩

/-! ### Invariants of the greedy assigner -/

theorem assignPod_pods (day : Day) (ps : List Player) (st : AssignState) :
    (assignPod day ps st).pods = st.pods ++ [⟨day, ps⟩] := rfl

theorem assignPod_assigned (day : Day) (ps : List Player) (st : AssignState) :
    (assignPod day ps st).assigned = ps.foldl (fun s p => insert p s) st.assigned := rfl

theorem releaseStale_pods (ca : List (Player × Day)) (dtp : List (Day × List Player))
    (st : AssignState) : (releaseStale ca dtp st).pods = st.pods := rfl

theorem releaseStale_assigned (ca : List (Player × Day)) (dtp : List (Day × List Player))
    (st : AssignState) : (releaseStale ca dtp st).assigned = st.assigned := rfl

theorem mem_foldl_insert (l : List Player) (s : Finset Player) (x : Player) :
    x ∈ l.foldl (fun s p => insert p s) s ↔ x ∈ l ∨ x ∈ s := by
  induction l generalizing s with
  | nil => simp
  | cons p rest ih =>
      simp only [List.foldl_cons, ih, Finset.mem_insert, List.mem_cons]
      tauto

theorem isEligible_not_assigned {day : Day} {criticalForDay : List Player}
    {prefs : List (Player × List String)} {st : AssignState} {p : Player}
    (h : isEligible day criticalForDay prefs st p = true) : p ∉ st.assigned := by
  intro hp
  unfold isEligible at h
  rw [if_pos hp] at h
  exact Bool.false_ne_true h

theorem formPodsLoop_inv {day : Day} {available criticalForDay : List Player}
    {prefs : List (Player × List String)} (P : AssignState → Prop)
    (hstep : ∀ st, P st →
      4 ≤ (available.filter (isEligible day criticalForDay prefs st)).length →
      P (assignPod day ((available.filter (isEligible day criticalForDay prefs st)).take 4) st)) :
    ∀ (fuel : Nat) (st : AssignState), P st →
      P (formPodsLoop day available criticalForDay prefs fuel st) := by
  intro fuel
  induction fuel with
  | zero => exact fun st h => h
  | succ n ih =>
      intro st h
      by_cases hle : 4 ≤ (available.filter (isEligible day criticalForDay prefs st)).length
      · rw [formPodsLoop, if_pos hle]
        exact ih _ (hstep st h hle)
      · rw [formPodsLoop, if_neg hle]
        exact h

theorem foldl_inv_mem {σ α : Type} {P : σ → Prop} {step : σ → α → σ} :
    ∀ {l : List α}, (∀ s, ∀ a ∈ l, P s → P (step s a)) →
      ∀ s, P s → P (l.foldl step s) := by
  intro l
  induction l with
  | nil => exact fun _ s hs => hs
  | cons a rest ih =>
      intro h s hs
      exact ih (fun s b hb hps => h s b (List.mem_cons_of_mem a hb) hps)
        _ (h s a (List.mem_cons_self a rest) hs)

/-- The main structural invariant: every pod player is marked assigned, and no two
pods in the list share a player. -/
def PodsInv (st : AssignState) : Prop :=
  (∀ pod ∈ st.pods, ∀ p ∈ pod.players, p ∈ st.assigned) ∧
  st.pods.Pairwise (fun a b => ∀ p ∈ a.players, p ∉ b.players)

theorem podsInv_assignPod {day : Day} {ps : List Player} {st : AssignState}
    (hps : ∀ p ∈ ps, p ∉ st.assigned) (h : PodsInv st) : PodsInv (assignPod day ps st) := by
  obtain ⟨h1, h2⟩ := h
  constructor
  · intro pod hpod p hp
    rw [assignPod_pods] at hpod
    rw [assignPod_assigned, mem_foldl_insert]
    rcases List.mem_append.mp hpod with hpod | hpod
    · exact Or.inr (h1 pod hpod p hp)
    · rw [List.mem_singleton] at hpod
      subst hpod
      exact Or.inl hp
  · rw [assignPod_pods, List.pairwise_append]
    refine ⟨h2, List.pairwise_singleton _ _, ?_⟩
    intro a ha b hb p hpa
    rw [List.mem_singleton] at hb
    subst hb
    intro hpb
    exact hps p hpb (h1 a ha p hpa)

theorem podsInv_formPodsLoop {day : Day} {available criticalForDay : List Player}
    {prefs : List (Player × List String)} (fuel : Nat) (st : AssignState)
    (h : PodsInv st) : PodsInv (formPodsLoop day available criticalForDay prefs fuel st) := by
  refine formPodsLoop_inv PodsInv ?_ fuel st h
  intro st hst hle
  refine podsInv_assignPod ?_ hst
  intro p hp
  have hmem := List.mem_of_mem_take hp
  exact isEligible_not_assigned (List.mem_filter.mp hmem).2

theorem podsInv_releaseStale {ca : List (Player × Day)} {dtp : List (Day × List Player)}
    {st : AssignState} (h : PodsInv st) : PodsInv (releaseStale ca dtp st) := by
  obtain ⟨h1, h2⟩ := h
  exact ⟨fun pod hpod p hp => h1 pod hpod p hp, h2⟩

theorem podsInv_assignFinal (dtp : List (Day × List Player))
    (av : List (Player × List Day)) (prefs : List (Player × List String)) :
    PodsInv (assignFinal dtp av prefs) := by
  unfold assignFinal
  refine foldl_inv_mem (fun st di _ h => ?_) _ ?_
  · exact podsInv_releaseStale (podsInv_formPodsLoop _ _ h)
  · exact ⟨by simp [assignInit], by simp [assignInit]⟩

theorem optimizePods_pods (av : List (Player × List Day))
    (prefs : List (Player × List String)) :
    (optimizePods av prefs).pods = (assignFinal (dayToPlayers av) av prefs).pods := by
  cases hd : detectChoiceScenario av (dayToPlayers av) <;>
    simp [optimizePods, findBestAssignment, hd]

theorem optimizePods_with_games (av : List (Player × List Day))
    (prefs : List (Player × List String)) :
    (optimizePods av prefs).players_with_games =
      (assignFinal (dayToPlayers av) av prefs).assigned := by
  cases hd : detectChoiceScenario av (dayToPlayers av) <;>
    simp [optimizePods, findBestAssignment, hd]

theorem optimizePods_without_games (av : List (Player × List Day))
    (prefs : List (Player × List String)) :
    (optimizePods av prefs).players_without_games =
      (av.map Prod.fst).toFinset \ (assignFinal (dayToPlayers av) av prefs).assigned := by
  cases hd : detectChoiceScenario av (dayToPlayers av) <;>
    simp [optimizePods, findBestAssignment, hd]

/-- C10: no player ever appears in two different pods of the returned result: the
`is_eligible` check excludes already-assigned players unconditionally. -/
theorem no_player_in_two_pods (av : List (Player × List Day))
    (prefs : List (Player × List String)) :
    (optimizePods av prefs).pods.Pairwise (fun a b => ∀ p ∈ a.players, p ∉ b.players) := by
  rw [optimizePods_pods]
  exact (podsInv_assignFinal _ _ _).2

theorem mem_pods_unique {pods : List PodAssignment}
    (hp : pods.Pairwise (fun a b => ∀ p ∈ a.players, p ∉ b.players))
    {pod1 pod2 : PodAssignment} (h1 : pod1 ∈ pods) (h2 : pod2 ∈ pods)
    {q : Player} (hq1 : q ∈ pod1.players) (hq2 : q ∈ pod2.players) : pod1 = pod2 := by
  induction pods with
  | nil => simp at h1
  | cons x rest ih =>
      rw [List.pairwise_cons] at hp
      rcases List.mem_cons.mp h1 with e1 | e1 <;> rcases List.mem_cons.mp h2 with e2 | e2
      · exact e1.trans e2.symm
      · subst e1
        exact absurd hq2 (hp.1 pod2 e2 q hq1)
      · subst e2
        exact absurd hq1 (hp.1 pod1 e1 q hq2)
      · exact ih hp.2 e1 e2

/-- C7: a player with NO_CONSECUTIVE never holds two adjacent pod days; in this
module version a player is in at most one pod, so any two pods containing the
player coincide, and no day is adjacent to itself in the cyclic table. -/
theorem no_consecutive_respected (av : List (Player × List Day))
    (prefs : List (Player × List String)) (q : Player)
    (hq : PREF_NO_CONSECUTIVE ∈ alistGetD prefs q [])
    (pod1 : PodAssignment) (h1 : pod1 ∈ (optimizePods av prefs).pods)
    (pod2 : PodAssignment) (h2 : pod2 ∈ (optimizePods av prefs).pods)
    (hq1 : q ∈ pod1.players) (hq2 : q ∈ pod2.players) :
    pod2.day ∉ ADJACENT_DAYS pod1.day := by
  rw [optimizePods_pods] at h1 h2
  have heq := mem_pods_unique (podsInv_assignFinal (dayToPlayers av) av prefs).2 h1 h2 hq1 hq2
  rw [heq]
  exact not_mem_adjacent_self pod2.day

theorem no_consecutive_respected_witness :
    PREF_NO_CONSECUTIVE ∈ alistGetD [("alice", [PREF_NO_CONSECUTIVE])] "alice" [] ∧
    "Monday" ∉ ADJACENT_DAYS "Monday" :=
  ⟨by decide,
    by
      have h := no_consecutive_respected
        [("alice", ["Monday"]), ("bob", ["Monday"]), ("charlie", ["Monday"]),
          ("dave", ["Monday"])]
        [("alice", [PREF_NO_CONSECUTIVE])] "alice" (by decide)
        ⟨"Monday", ["alice", "bob", "charlie", "dave"]⟩ (by decide)
        ⟨"Monday", ["alice", "bob", "charlie", "dave"]⟩ (by decide)
        (by decide) (by decide)
      exact h⟩

/-- Assigned players stay inside a fixed universe of players. -/
def AssignedSub (allP : Finset Player) (st : AssignState) : Prop :=
  st.assigned ⊆ allP

theorem assignFinal_assigned_sub (av : List (Player × List Day))
    (prefs : List (Player × List String)) :
    (assignFinal (dayToPlayers av) av prefs).assigned ⊆ (av.map Prod.fst).toFinset := by
  have hQ : ∀ di ∈ sortedDays (dayToPlayers av) av, ∀ p ∈ di.2,
      p ∈ (av.map Prod.fst).toFinset := by
    intro di hdi p hp
    have hchar := mem_dayToPlayers_getD (sortedDays_mem.mp hdi)
    rw [hchar] at hp
    exact List.mem_toFinset.mpr (avPlayersOn_sub_keys hp)
  show AssignedSub ((av.map Prod.fst).toFinset) (assignFinal (dayToPlayers av) av prefs)
  unfold assignFinal
  refine foldl_inv_mem ?_ _ ?_
  · intro st di hdi h
    show AssignedSub _ (processDay _ _ _ _ st di)
    have h2 : AssignedSub ((av.map Prod.fst).toFinset)
        (formPodsLoop di.1 di.2
          (alistGetD (criticalByDay (detectCriticalFlexiblePlayers (dayToPlayers av) av)) di.1 [])
          prefs di.2.length st) := by
      refine formPodsLoop_inv (AssignedSub ((av.map Prod.fst).toFinset)) ?_ _ _ h
      intro st2 hst2 hle
      show AssignedSub _ (assignPod _ _ st2)
      unfold AssignedSub at hst2 ⊢
      rw [assignPod_assigned]
      intro x hx
      rw [mem_foldl_insert] at hx
      rcases hx with hx | hx
      · exact hQ di hdi x (List.mem_filter.mp (List.mem_of_mem_take hx)).1
      · exact hst2 hx
    exact h2
  · show AssignedSub _ (assignInit (dayToPlayers av) av)
    unfold AssignedSub assignInit
    exact Finset.empty_subset _

/-- C4: `players_with_games` and `players_without_games` are disjoint and partition
exactly the keys of the availability mapping. -/
theorem coverage_partition (av : List (Player × List Day))
    (prefs : List (Player × List String)) :
    Disjoint (optimizePods av prefs).players_with_games
      (optimizePods av prefs).players_without_games ∧
    (optimizePods av prefs).players_with_games ∪
      (optimizePods av prefs).players_without_games = (av.map Prod.fst).toFinset := by
  rw [optimizePods_with_games, optimizePods_without_games]
  exact ⟨Finset.disjoint_sdiff, Finset.union_sdiff_of_subset (assignFinal_assigned_sub av prefs)⟩

/-- Every pod formed so far has exactly four players, no duplicates, and each of
them listed the pod's day in their availability. -/
def PodShape (av : List (Player × List Day)) (st : AssignState) : Prop :=
  ∀ pod ∈ st.pods, pod.players.length = 4 ∧ pod.players.Nodup ∧
    ∀ p ∈ pod.players, pod.day ∈ alistGetD av p []

theorem podShape_assignFinal (av : List (Player × List Day))
    (prefs : List (Player × List String)) (hk : (av.map Prod.fst).Nodup)
    (hd : ∀ pd ∈ av, pd.2.Nodup) :
    PodShape av (assignFinal (dayToPlayers av) av prefs) := by
  have hQ : ∀ di ∈ sortedDays (dayToPlayers av) av,
      di.2.Nodup ∧ ∀ p ∈ di.2, di.1 ∈ alistGetD av p [] := by
    intro di hdi
    have hchar := mem_dayToPlayers_getD (sortedDays_mem.mp hdi)
    rw [hchar]
    exact ⟨avPlayersOn_nodup hk hd di.1, fun p hp => avPlayersOn_mem_avail hk hp⟩
  unfold assignFinal
  refine foldl_inv_mem ?_ _ ?_
  · intro st di hdi h
    show PodShape av (processDay _ _ _ _ st di)
    have h2 : PodShape av
        (formPodsLoop di.1 di.2
          (alistGetD (criticalByDay (detectCriticalFlexiblePlayers (dayToPlayers av) av)) di.1 [])
          prefs di.2.length st) := by
      refine formPodsLoop_inv (PodShape av) ?_ _ _ h
      intro st2 hst2 hle
      intro pod hpod
      rw [assignPod_pods] at hpod
      rcases List.mem_append.mp hpod with hpod | hpod
      · exact hst2 pod hpod
      · rw [List.mem_singleton] at hpod
        subst hpod
        refine ⟨?_, ?_, ?_⟩
        · rw [List.length_take]
          exact Nat.min_eq_left hle
        · exact ((List.take_sublist _ _).trans (List.filter_sublist _)).nodup (hQ di hdi).1
        · intro p hp
          exact (hQ di hdi).2 p (List.mem_filter.mp (List.mem_of_mem_take hp)).1
    exact h2
  · intro pod hpod
    simp [assignInit] at hpod

/-- C3: in the returned result every pod has exactly 4 pairwise-distinct players,
each of whom listed the pod's day in their availability; the hypotheses state the
input contract (dict keys are unique, each day list is duplicate-free). -/
theorem pod_size_invariant (av : List (Player × List Day))
    (prefs : List (Player × List String)) (hk : (av.map Prod.fst).Nodup)
    (hd : ∀ pd ∈ av, pd.2.Nodup) :
    ∀ pod ∈ (optimizePods av prefs).pods, pod.players.length = 4 ∧ pod.players.Nodup ∧
      ∀ p ∈ pod.players, pod.day ∈ alistGetD av p [] := by
  rw [optimizePods_pods]
  exact podShape_assignFinal av prefs hk hd

theorem pod_size_invariant_witness :
    (([("alice", ["Monday"]), ("bob", ["Monday"]), ("charlie", ["Monday"]),
        ("dave", ["Monday"]), ("eve", ["Monday"])] :
      List (Player × List Day)).map Prod.fst).Nodup ∧
    ((⟨"Monday", ["alice", "bob", "charlie", "dave"]⟩ : PodAssignment) ∈
      (optimizePods [("alice", ["Monday"]), ("bob", ["Monday"]), ("charlie", ["Monday"]),
        ("dave", ["Monday"]), ("eve", ["Monday"])] []).pods) ∧
    (["alice", "bob", "charlie", "dave"] : List Player).length = 4 ∧
    (["alice", "bob", "charlie", "dave"] : List Player).Nodup ∧
    (∀ p ∈ (["alice", "bob", "charlie", "dave"] : List Player),
      "Monday" ∈ alistGetD [("alice", ["Monday"]), ("bob", ["Monday"]),
        ("charlie", ["Monday"]), ("dave", ["Monday"]), ("eve", ["Monday"])] p []) :=
  ⟨by decide, by decide,
    pod_size_invariant
      [("alice", ["Monday"]), ("bob", ["Monday"]), ("charlie", ["Monday"]),
        ("dave", ["Monday"]), ("eve", ["Monday"])] [] (by decide) (by decide)
      ⟨"Monday", ["alice", "bob", "charlie", "dave"]⟩ (by decide)⟩

/-! ### First-hit scans -/

theorem findSomeEqSome {α β : Type} {f : α → Option β} :
    ∀ {l : List α} {b : β}, l.findSome? f = some b → ∃ a ∈ l, f a = some b := by
  intro l
  induction l with
  | nil =>
      intro b h
      simp [List.findSome?] at h
  | cons x xs ih =>
      intro b h
      rw [List.findSome?_cons] at h
      cases hfx : f x with
      | some c =>
          rw [hfx] at h
          exact ⟨x, List.mem_cons_self x xs, by rw [hfx]; exact h⟩
      | none =>
          rw [hfx] at h
          obtain ⟨a, ha, hfa⟩ := ih h
          exact ⟨a, List.mem_cons_of_mem x ha, hfa⟩

theorem findSomePrefixNone {α β : Type} {f : α → Option β} :
    ∀ {l1 : List α} (l2 : List α), (∀ a ∈ l1, f a = none) →
      (l1 ++ l2).findSome? f = l2.findSome? f := by
  intro l1
  induction l1 with
  | nil => intro l2 _; rfl
  | cons x xs ih =>
      intro l2 h
      have hx := h x (List.mem_cons_self x xs)
      rw [List.cons_append, List.findSome?_cons, hx]
      exact ih l2 (fun a ha => h a (List.mem_cons_of_mem x ha))

theorem detect_shape {av : List (Player × List Day)} {dtp : List (Day × List Player)}
    {c : ChoiceScenario} (h : detectChoiceScenario av dtp = some c) :
    ∃ pd ∈ av, 1 < pd.2.length ∧ ∃ d1 d2, (d1, d2) ∈ pairsCombos pd.2 ∧
      ∃ ps1 ps2, alistGet d1 dtp = some ps1 ∧ alistGet d2 dtp = some ps2 ∧
        ps1.length = 4 ∧ ps2.length = 4 ∧ pd.1 ∈ ps1 ∧ pd.1 ∈ ps2 ∧
        c = ChoiceScenario.criticalForBoth pd.1 d1 d2 ps1 ps2 := by
  unfold detectChoiceScenario at h
  obtain ⟨pd, hpd, hinner⟩ := findSomeEqSome h
  have hflt := List.mem_filter.mp hpd
  obtain ⟨d12, hd12, hmatch⟩ := findSomeEqSome hinner
  refine ⟨pd, hflt.1, by simpa using hflt.2, d12.1, d12.2, by simpa using hd12, ?_⟩
  cases hg1 : alistGet d12.1 dtp with
  | none =>
      rw [hg1] at hmatch
      simp at hmatch
  | some ps1 =>
      cases hg2 : alistGet d12.2 dtp with
      | none =>
          rw [hg1, hg2] at hmatch
          simp at hmatch
      | some ps2 =>
          rw [hg1, hg2] at hmatch
          have hmatch2 : (if ps1.length = 4 ∧ ps2.length = 4 ∧ pd.1 ∈ ps1 ∧ pd.1 ∈ ps2 then
              some (ChoiceScenario.criticalForBoth pd.1 d12.1 d12.2 ps1 ps2)
            else none) = some c := hmatch
          by_cases hcond : ps1.length = 4 ∧ ps2.length = 4 ∧ pd.1 ∈ ps1 ∧ pd.1 ∈ ps2
          · rw [if_pos hcond] at hmatch2
            exact ⟨ps1, ps2, rfl, rfl, hcond.1, hcond.2.1, hcond.2.2.1, hcond.2.2.2,
              (Option.some.inj hmatch2).symm⟩
          · rw [if_neg hcond] at hmatch2
            exact absurd hmatch2 (by simp)

/-- C6: the result carries at most one choice scenario (a single optional field),
and whenever the raw pre-assignment detector finds a critical-for-both player,
that scenario is the surfaced one, overriding any double-play scenario. -/
theorem critical_precedence (av : List (Player × List Day))
    (prefs : List (Player × List String)) (c : ChoiceScenario)
    (h : detectChoiceScenario av (dayToPlayers av) = some c) :
    (optimizePods av prefs).choice_required = some c ∧
    ∃ pd ∈ av, 1 < pd.2.length ∧ ∃ d1 d2, (d1, d2) ∈ pairsCombos pd.2 ∧
      ∃ ps1 ps2, alistGet d1 (dayToPlayers av) = some ps1 ∧
        alistGet d2 (dayToPlayers av) = some ps2 ∧ ps1.length = 4 ∧ ps2.length = 4 ∧
        pd.1 ∈ ps1 ∧ pd.1 ∈ ps2 ∧ c = ChoiceScenario.criticalForBoth pd.1 d1 d2 ps1 ps2 := by
  refine ⟨?_, detect_shape h⟩
  simp [optimizePods, h]

/-- Scenario C of the spec: alice critical for both Monday and Wednesday. -/
def criticalBothAv : List (Player × List Day) :=
  [("alice", ["Monday", "Wednesday"]), ("bob", ["Monday"]), ("charlie", ["Monday"]),
   ("dave", ["Monday"]), ("eve", ["Wednesday"]), ("frank", ["Wednesday"]),
   ("grace", ["Wednesday"])]

theorem critical_precedence_witness :
    detectChoiceScenario criticalBothAv (dayToPlayers criticalBothAv) =
      some (ChoiceScenario.criticalForBoth "alice" "Monday" "Wednesday"
        ["alice", "bob", "charlie", "dave"] ["alice", "eve", "frank", "grace"]) ∧
    (optimizePods criticalBothAv []).choice_required =
      some (ChoiceScenario.criticalForBoth "alice" "Monday" "Wednesday"
        ["alice", "bob", "charlie", "dave"] ["alice", "eve", "frank", "grace"]) :=
  ⟨by decide,
    (critical_precedence criticalBothAv []
      (ChoiceScenario.criticalForBoth "alice" "Monday" "Wednesday"
        ["alice", "bob", "charlie", "dave"] ["alice", "eve", "frank", "grace"])
      (by decide)).1⟩

theorem dplayCheck_eq_none {av : List (Player × List Day)}
    {prefs : List (Player × List String)} {st : AssignState} {di : Day × List Player}
    (h : ¬ ((unassignedOn st di).length = 3 ∧ flexCandidates av prefs st di ≠ [])) :
    dplayCheck av prefs st di = none := by
  unfold dplayCheck
  by_cases h3 : (unassignedOn st di).length = 3
  · rw [if_pos h3]
    by_cases hc : flexCandidates av prefs st di ≠ []
    · exact absurd ⟨h3, hc⟩ h
    · rw [if_neg hc]
  · rw [if_neg h3]

theorem dplayCheck_eq_some {av : List (Player × List Day)}
    {prefs : List (Player × List String)} {st : AssignState} {di : Day × List Player}
    (h3 : (unassignedOn st di).length = 3) (hc : flexCandidates av prefs st di ≠ []) :
    dplayCheck av prefs st di =
      some (ChoiceScenario.doublePlayNeeded di.1 (unassignedOn st di)
        (flexCandidates av prefs st di)) := by
  unfold dplayCheck
  rw [if_pos h3, if_pos hc]

/-- C8: when no critical-for-both scenario takes precedence and some processed day
has exactly 3 unassigned players plus at least one flexible candidate, the result's
choice scenario is DoublePlayNeeded for the first such day in priority order,
listing exactly those waiting players and exactly those candidates. -/
theorem double_play_detection (av : List (Player × List Day))
    (prefs : List (Player × List String)) (l1 l2 : List (Day × List Player))
    (di : Day × List Player)
    (hdet : detectChoiceScenario av (dayToPlayers av) = none)
    (hsplit : sortedDays (dayToPlayers av) av = l1 ++ di :: l2)
    (h3 : (unassignedOn (assignFinal (dayToPlayers av) av prefs) di).length = 3)
    (hc : flexCandidates av prefs (assignFinal (dayToPlayers av) av prefs) di ≠ [])
    (hfirst : ∀ dj ∈ l1,
      ¬ ((unassignedOn (assignFinal (dayToPlayers av) av prefs) dj).length = 3 ∧
         flexCandidates av prefs (assignFinal (dayToPlayers av) av prefs) dj ≠ [])) :
    (optimizePods av prefs).choice_required =
      some (ChoiceScenario.doublePlayNeeded di.1
        (unassignedOn (assignFinal (dayToPlayers av) av prefs) di)
        (flexCandidates av prefs (assignFinal (dayToPlayers av) av prefs) di)) := by
  have hchoice : (optimizePods av prefs).choice_required =
      findDoublePlay av prefs (sortedDays (dayToPlayers av) av)
        (assignFinal (dayToPlayers av) av prefs) := by
    simp [optimizePods, findBestAssignment, hdet]
  rw [hchoice]
  unfold findDoublePlay
  rw [hsplit, findSomePrefixNone _ (fun dj hdj => dplayCheck_eq_none (hfirst dj hdj)),
    List.findSome?_cons, dplayCheck_eq_some h3 hc]

/-- Scenario E of the spec, enlarged so that the critical-for-both detector does
not fire: Monday has 8 players (two pods form), Wednesday is left with 3 waiting
players plus the already-assigned flexible player al. -/
def dplayAv : List (Player × List Day) :=
  [("al", ["Monday", "Wednesday"]), ("b1", ["Monday"]), ("b2", ["Monday"]),
   ("b3", ["Monday"]), ("b4", ["Monday"]), ("b5", ["Monday"]), ("b6", ["Monday"]),
   ("b7", ["Monday"]), ("ev", ["Wednesday"]), ("fr", ["Wednesday"]),
   ("gr", ["Wednesday"])]

theorem double_play_detection_witness :
    (optimizePods dplayAv []).choice_required =
      some (ChoiceScenario.doublePlayNeeded "Wednesday" ["ev", "fr", "gr"] ["al"]) := by
  have h := double_play_detection dplayAv []
    [("Monday", ["al", "b1", "b2", "b3", "b4", "b5", "b6", "b7"])] []
    ("Wednesday", ["al", "ev", "fr", "gr"])
    (by decide) (by decide) (by decide) (by decide) (by decide)
  exact h.trans (by decide)

/-! ### Incomplete-pod reporting (modelled from the spec) -/

/-- The `IncompletePod` record used by the repository's tests and callers. -/
structure IncompletePod where
  day : Day
  players : List Player
  needed : Nat
  eligible_volunteers : List Player
deriving DecidableEq

/-- Modelled from the spec: the module snapshot embedded above predates the
`incomplete_pods` reporting that the repository's tests (which import
`IncompletePod` from this module) and callers (`game_ui.py` reads
`result.incomplete_pods`) rely on; that part of the result assembler is missing
from the snapshot.  Spec section 4.7: build an IncompletePod for every day whose
leftover (unassigned) player count is in [1,3], carrying the day, the stranded
players, `needed = 4 - stranded`, and the eligible volunteers computed the same
way as the double-play pass but without restricting to exactly 3 short. -/
def incompletePodsOf (av : List (Player × List Day))
    (prefs : List (Player × List String)) : List IncompletePod :=
  (sortedDays (dayToPlayers av) av).filterMap (fun di =>
    if 1 ≤ (unassignedOn (assignFinal (dayToPlayers av) av prefs) di).length ∧
        (unassignedOn (assignFinal (dayToPlayers av) av prefs) di).length ≤ 3 then
      some ⟨di.1, unassignedOn (assignFinal (dayToPlayers av) av prefs) di,
        4 - (unassignedOn (assignFinal (dayToPlayers av) av prefs) di).length,
        flexCandidates av prefs (assignFinal (dayToPlayers av) av prefs) di⟩
    else none)

/-- Modelled from the spec: the full result assembler, pairing the snapshot's
`OptimizationResult` with the incomplete-pod records of section 4.7. -/
def optimizePodsFull (av : List (Player × List Day))
    (prefs : List (Player × List String)) : OptimizationResult × List IncompletePod :=
  (optimizePods av prefs, incompletePodsOf av prefs)

/-- C1: the assembled result contains one IncompletePod exactly for every day whose
leftover player count lies in [1,3], carrying that day, the stranded players,
`needed = 4 - stranded` (always in [1,3]) and the eligible volunteers. -/
theorem incomplete_pods_exact (av : List (Player × List Day))
    (prefs : List (Player × List String)) :
    (∀ di ∈ sortedDays (dayToPlayers av) av,
      1 ≤ (unassignedOn (assignFinal (dayToPlayers av) av prefs) di).length →
      (unassignedOn (assignFinal (dayToPlayers av) av prefs) di).length ≤ 3 →
      (⟨di.1, unassignedOn (assignFinal (dayToPlayers av) av prefs) di,
        4 - (unassignedOn (assignFinal (dayToPlayers av) av prefs) di).length,
        flexCandidates av prefs (assignFinal (dayToPlayers av) av prefs) di⟩ :
        IncompletePod) ∈ (optimizePodsFull av prefs).2) ∧
    (∀ ip ∈ (optimizePodsFull av prefs).2, ∃ di ∈ sortedDays (dayToPlayers av) av,
      ip.day = di.1 ∧
      ip.players = unassignedOn (assignFinal (dayToPlayers av) av prefs) di ∧
      1 ≤ ip.players.length ∧ ip.players.length ≤ 3 ∧
      ip.needed = 4 - ip.players.length ∧ 1 ≤ ip.needed ∧ ip.needed ≤ 3 ∧
      ip.eligible_volunteers =
        flexCandidates av prefs (assignFinal (dayToPlayers av) av prefs) di) := by
  constructor
  · intro di hdi h1 h3
    refine List.mem_filterMap.mpr ⟨di, hdi, ?_⟩
    rw [if_pos ⟨h1, h3⟩]
  · intro ip hip
    obtain ⟨di, hdi, hf⟩ := List.mem_filterMap.mp hip
    by_cases hcond :
        1 ≤ (unassignedOn (assignFinal (dayToPlayers av) av prefs) di).length ∧
        (unassignedOn (assignFinal (dayToPlayers av) av prefs) di).length ≤ 3
    · rw [if_pos hcond] at hf
      obtain rfl := Option.some.inj hf
      refine ⟨di, hdi, rfl, rfl, hcond.1, hcond.2, rfl, ?_, ?_, rfl⟩ <;>
        · dsimp only
          omega
    · rw [if_neg hcond] at hf
      exact absurd hf (by simp)

/-- Scenario: five players on Monday; one pod forms and one player is stranded. -/
def fiveMondayAv : List (Player × List Day) :=
  [("p1", ["Monday"]), ("p2", ["Monday"]), ("p3", ["Monday"]), ("p4", ["Monday"]),
   ("p5", ["Monday"])]

theorem incomplete_pods_exact_witness :
    (⟨"Monday", ["p5"], 3, []⟩ : IncompletePod) ∈ (optimizePodsFull fiveMondayAv []).2 := by
  have h := (incomplete_pods_exact fiveMondayAv []).1
    ("Monday", ["p1", "p2", "p3", "p4", "p5"]) (by decide) (by decide) (by decide)
  revert h
  decide

/-! ### Day validation (C2) -/

/-- C2 counterexample: a day outside the canonical set raises nothing and is not
skipped — four players available only on "Funday" get a pod on "Funday", so the
non-canonical day is silently processed rather than rejected. -/
theorem invalid_day_counterexample :
    "Funday" ∉ canonicalDays ∧
    (optimizePods [("a", ["Funday"]), ("b", ["Funday"]), ("c", ["Funday"]),
        ("d", ["Funday"])] []).pods = [⟨"Funday", ["a", "b", "c", "d"]⟩] :=
  ⟨by decide, by decide⟩

/-- C2 amended: the module performs no day validation and raises no error: a
non-canonical day simply has no adjacent days, sorts after every canonical day
(`day_order.get(day, 99)`), and otherwise participates in assignment like any
other day — four players available only on it form a pod on it. -/
theorem invalid_day_processed (d : Day) (h : d ∉ canonicalDays) :
    ADJACENT_DAYS d = [] ∧ dayOrder d = 99 ∧
    (optimizePods [("q1", [d]), ("q2", [d]), ("q3", [d]), ("q4", [d])] []).pods =
      [⟨d, ["q1", "q2", "q3", "q4"]⟩] := by
  simp only [canonicalDays, List.mem_cons, List.not_mem_nil, or_false, not_or] at h
  obtain ⟨h1, h2, h3, h4, h5, h6, h7⟩ := h
  refine ⟨?_, ?_, ?_⟩
  · simp [ADJACENT_DAYS, h1, h2, h3, h4, h5, h6, h7]
  · simp [dayOrder, h1, h2, h3, h4, h5, h6, h7]
  · have hdtp : dayToPlayers [("q1", [d]), ("q2", [d]), ("q3", [d]), ("q4", [d])] =
        [(d, ["q1", "q2", "q3", "q4"])] := by
      simp [dayToPlayers, addDays, pushVal]
    rw [optimizePods_pods, hdtp]
    rfl

theorem invalid_day_processed_witness :
    "Someday" ∉ canonicalDays ∧
    (ADJACENT_DAYS "Someday" = [] ∧ dayOrder "Someday" = 99 ∧
      (optimizePods [("q1", ["Someday"]), ("q2", ["Someday"]), ("q3", ["Someday"]),
          ("q4", ["Someday"])] []).pods = [⟨"Someday", ["q1", "q2", "q3", "q4"]⟩]) :=
  ⟨by decide, invalid_day_processed "Someday" (by decide)⟩

end PodOptimizer
